import Mathlib

set_option maxRecDepth 40000

/-!
# Verification of the ybcbpm tempo-resolution and beat-synchronized playback core

Shallow embedding of the tempo scorer (`findBestBpm`), the phase estimator
(`findBestPhase`), the derived beat grid (`beatInfo`) from `App.tsx`, and the
metronome scheduler of `TempoControls.tsx`.  JavaScript numbers are modelled as
exact rationals (`ℚ`); JavaScript's `%` is the truncated remainder (sign of the
dividend), and `x % 0` is `NaN`, modelled as `Option.none` where reachable.

The arithmetic operations `qAdd`, `qSub`, `qMul`, `qDiv` are kernel-computable
versions of `+`, `-`, `*`, `/` on `ℚ` (the library operations are
`@[irreducible]`); the bridge lemmas `qAdd_eq` … `qDiv_eq` prove they agree
with the field operations, so every embedded definition can be both evaluated
on concrete inputs and reasoned about algebraically.
-/

namespace Ybcbpm

/-- Kernel-computable addition on `ℚ` (agrees with `+`, see `qAdd_eq`). -/
def qAdd (a b : ℚ) : ℚ :=
  Rat.divInt (a.num * (b.den : ℤ) + b.num * (a.den : ℤ)) ((a.den : ℤ) * (b.den : ℤ))

/-- Kernel-computable subtraction on `ℚ` (agrees with `-`, see `qSub_eq`). -/
def qSub (a b : ℚ) : ℚ :=
  Rat.divInt (a.num * (b.den : ℤ) - b.num * (a.den : ℤ)) ((a.den : ℤ) * (b.den : ℤ))

/-- Kernel-computable multiplication on `ℚ` (agrees with `*`, see `qMul_eq`). -/
def qMul (a b : ℚ) : ℚ :=
  Rat.divInt (a.num * b.num) ((a.den : ℤ) * (b.den : ℤ))

/-- Kernel-computable division on `ℚ` (agrees with `/`, see `qDiv_eq`;
like JavaScript-on-rationals we only ever rely on it for nonzero divisors,
and like Lean's `/` it sends division by zero to zero). -/
def qDiv (a b : ℚ) : ℚ :=
  Rat.divInt (a.num * (b.den : ℤ)) ((a.den : ℤ) * b.num)

theorem qAdd_eq (a b : ℚ) : qAdd a b = a + b := by
  rw [qAdd]
  conv_rhs => rw [← Rat.num_divInt_den a, ← Rat.num_divInt_den b]
  rw [Rat.divInt_add_divInt _ _ (Int.natCast_ne_zero.2 a.den_nz)
    (Int.natCast_ne_zero.2 b.den_nz)]

theorem qSub_eq (a b : ℚ) : qSub a b = a - b := by
  rw [qSub]
  conv_rhs => rw [← Rat.num_divInt_den a, ← Rat.num_divInt_den b]
  rw [Rat.divInt_sub_divInt _ _ (Int.natCast_ne_zero.2 a.den_nz)
    (Int.natCast_ne_zero.2 b.den_nz)]

theorem qMul_eq (a b : ℚ) : qMul a b = a * b := by
  rw [qMul]
  conv_rhs => rw [← Rat.num_divInt_den a, ← Rat.num_divInt_den b]
  rw [Rat.divInt_mul_divInt _ _ (Int.natCast_ne_zero.2 a.den_nz)
    (Int.natCast_ne_zero.2 b.den_nz)]

theorem qDiv_eq (a b : ℚ) : qDiv a b = a / b := by
  rcases eq_or_ne b 0 with rfl | hb
  · simp [qDiv, Rat.divInt]
  · have hnum : b.num ≠ 0 := Rat.num_ne_zero.2 hb
    rw [qDiv, Rat.div_def, Rat.inv_def]
    conv_rhs => rw [← Rat.num_divInt_den a]
    rw [Rat.divInt_mul_divInt _ _ (Int.natCast_ne_zero.2 a.den_nz) hnum]

/-- JavaScript truncation toward zero (the integer part used by `%`). -/
def jsTrunc (q : ℚ) : ℤ := if q < 0 then ⌈q⌉ else ⌊q⌋

/-- JavaScript `a % b` for `b ≠ 0`: truncated remainder, sign of the dividend. -/
def jsMod (a b : ℚ) : ℚ := qSub a (qMul b (jsTrunc (qDiv a b) : ℚ))

theorem jsMod_eq (a b : ℚ) : jsMod a b = a - b * (jsTrunc (a / b) : ℚ) := by
  rw [jsMod, qSub_eq, qMul_eq, qDiv_eq]

/-- JavaScript `Math.round`: half-up rounding, `round x = ⌊x + 1/2⌋`. -/
def jsRound (q : ℚ) : ℤ := ⌊qAdd q (Rat.divInt 1 2)⌋

/-- A tempo candidate produced by the analyser (`types.ts`, `BpmCandidate`). -/
structure BpmCandidate where
  tempo : ℚ
  count : ℚ
  deriving DecidableEq, Repr

/-- Alignment score of one candidate (`App.tsx`, `findBestBpm` inner loop):
every evaluated peak except the first earns `1 - error/tolerance` when its
distance to the nearest whole multiple of `secondsPerBeat` is strictly inside
the tolerance `0.15 * secondsPerBeat`. -/
def alignmentScore (secondsPerBeat : ℚ) (evalPeaks : List ℚ) : ℚ :=
  (evalPeaks.drop 1).foldl
    (fun acc peakTime =>
      let expectedTime := qMul (jsRound (qDiv peakTime secondsPerBeat) : ℚ) secondsPerBeat
      let err := |qSub expectedTime peakTime|
      let tolerance := qMul secondsPerBeat (Rat.divInt 15 100)
      if err < tolerance then qAdd acc (qSub 1 (qDiv err tolerance)) else acc)
    0

/-- `findBestBpm` (`App.tsx` lines 42-77): combined score
`alignment + count + 0.1 * (numCandidates - rankIndex)`, strict improvement
keeps the first-seen winner, only the first 64 peaks are evaluated and the
first evaluated peak is skipped; the initial `bestScore = -Infinity` is
modelled by `Option.none` (beaten by every finite score). -/
def findBestBpm (candidates : List BpmCandidate) (peakTimes : List ℚ) : ℚ :=
  match candidates with
  | [] => 0
  | c0 :: _ =>
    if peakTimes.isEmpty then c0.tempo
    else
      let evaluationPeaks := peakTimes.take 64
      let n := candidates.length
      let final := candidates.enum.foldl
        (fun (st : ℚ × Option ℚ) ic =>
          let secondsPerBeat := qDiv 60 ic.2.tempo
          let confidenceBoost : ℚ := qSub (n : ℚ) (ic.1 : ℚ)
          let combinedScore :=
            qAdd (qAdd (alignmentScore secondsPerBeat evaluationPeaks) ic.2.count)
              (qMul confidenceBoost (Rat.divInt 1 10))
          match st.2 with
          | none => (ic.2.tempo, some combinedScore)
          | some bs => if bs < combinedScore then (ic.2.tempo, some combinedScore) else st)
        (c0.tempo, none)
      final.1

/-- Histogram bin of one peak (`findBestPhase` tally loop):
`⌊((p % b) / b) * 32⌋`. -/
def binIndex (beatInterval : ℚ) (peakTime : ℚ) : ℤ :=
  ⌊qMul (qDiv (jsMod peakTime beatInterval) beatInterval) 32⌋

/-- `bins[i]` after the tally loop of `findBestPhase`: the number of relevant
peaks whose bin index is `i`.  A JS write `bins[k]++` with `k` outside
`0..31` never touches a bin slot, so counting per index is exact. -/
def binCount (peaks : List ℚ) (beatInterval : ℚ) (i : ℕ) : ℕ :=
  peaks.countP (fun p => binIndex beatInterval p == (i : ℤ))

/-- Smoothed histogram weight: a bin plus half of each circular neighbour. -/
def smoothedCount (peaks : List ℚ) (beatInterval : ℚ) (i : ℕ) : ℚ :=
  qAdd (qAdd (binCount peaks beatInterval i : ℚ)
      (qMul (binCount peaks beatInterval ((i + 1) % 32) : ℚ) (Rat.divInt 1 2)))
    (qMul (binCount peaks beatInterval ((i + 31) % 32) : ℚ) (Rat.divInt 1 2))

/-- The `maxCount/bestBinIndex` scan of `findBestPhase`, abstracted over the
smoothed weights: fold over bins `0..31`, strict improvement keeps the
first-seen maximum, initial state `(-1, -1)`. -/
def bestBinScan (weight : ℕ → ℚ) : ℚ × ℤ :=
  (List.range 32).foldl
    (fun best i => let c := weight i; if best.1 < c then (c, (i : ℤ)) else best)
    (-1, -1)

/-- `findBestPhase` (`App.tsx` lines 359-391).  Returns `none` exactly where
the JS code returns `NaN`, namely at `(peaks[0] || 0) % 0` when
`beatInterval = 0` in the degenerate branch; every other path yields a
number.  The histogram uses only the first 150 peaks. -/
def findBestPhase (peaks : List ℚ) (beatInterval : ℚ) : Option ℚ :=
  if peaks.length < 2 ∨ beatInterval ≤ 0 then
    if beatInterval = 0 then none
    else some (jsMod (peaks.headD 0) beatInterval)
  else
    let relevantPeaks := peaks.take 150
    let best := bestBinScan (smoothedCount relevantPeaks beatInterval)
    if best.2 = -1 then some (jsMod (peaks.headD 0) beatInterval)
    else some (qMul (qDiv (qAdd (best.2 : ℚ) (Rat.divInt 1 2)) 32) beatInterval)

/-- The derived beat grid (`App.tsx`, the `beatInfo` memo):
`{phase, interval, firstBeat, isUserDefined}`. -/
structure BeatInfo where
  phase : ℚ
  interval : ℚ
  firstBeat : ℚ
  isUserDefined : Bool
  deriving DecidableEq, Repr

/-- The acceptance test of the `firstBeat` scan (`App.tsx` lines 656-663):
`remainder = (peakTime - phase) % beatInterval` (JS truncated remainder,
which is negative for peaks before the phase) and the peak is accepted when
`remainder < tolerance || beatInterval - remainder < tolerance` with
`tolerance = beatInterval / 4`. -/
def nearGrid (phase beatInterval peakTime : ℚ) : Bool :=
  let remainder := jsMod (qSub peakTime phase) beatInterval
  let tolerance := qDiv beatInterval 4
  decide (remainder < tolerance ∨ qSub beatInterval remainder < tolerance)

/-- The `for … break` scan of the `beatInfo` memo: `firstBeat` is the first
peak passing `nearGrid`, and `0` when none does (the loop's initial value). -/
def scanFirstBeat (phase beatInterval : ℚ) : List ℚ → ℚ
  | [] => 0
  | p :: rest =>
    if nearGrid phase beatInterval p then p else scanFirstBeat phase beatInterval rest

/-- The `beatInfo` memo (`App.tsx` lines 639-670) as a pure function of its
three inputs `activeBpm`, `analysisResult.peaks`, `userOverriddenBeat`.
The guard `!activeBpm || peaks.length === 0` yields the all-zero grid; a user
override short-circuits the estimate; otherwise phase comes from
`findBestPhase` (always a number here since `beatInterval ≠ 0`), and the
`firstBeat === 0` fallback re-reads `peaks[0] || 0`. -/
def beatInfo (activeBpm : ℚ) (peaks : List ℚ) (userOverriddenBeat : Option ℚ) :
    BeatInfo :=
  if activeBpm = 0 ∨ peaks.isEmpty then ⟨0, 0, 0, false⟩
  else
    let beatInterval := qDiv 60 activeBpm
    match userOverriddenBeat with
    | some t => ⟨jsMod t beatInterval, beatInterval, t, true⟩
    | none =>
      let phase := (findBestPhase peaks beatInterval).getD 0
      let fb := scanFirstBeat phase beatInterval peaks
      let firstBeat := if fb = 0 then peaks.headD 0 else fb
      ⟨phase, beatInterval, firstBeat, false⟩

/-- The automatic (no-override) beat grid: what the `beatInfo` memo computes
when `userOverriddenBeat` is `null`, written out independently.  Used to state
that resetting the override restores the freshly recomputed estimate. -/
def beatInfoAuto (activeBpm : ℚ) (peaks : List ℚ) : BeatInfo :=
  if activeBpm = 0 ∨ peaks.isEmpty then ⟨0, 0, 0, false⟩
  else
    let beatInterval := qDiv 60 activeBpm
    let phase := (findBestPhase peaks beatInterval).getD 0
    let fb := scanFirstBeat phase beatInterval peaks
    let firstBeat := if fb = 0 then peaks.headD 0 else fb
    ⟨phase, beatInterval, firstBeat, false⟩

/-! ## The metronome scheduler (`TempoControls.tsx`) -/

/-- `scheduleAheadTime = 0.1` seconds (`TempoControls.tsx` line 112). -/
def scheduleAheadTime : ℚ := Rat.divInt 1 10

/-- The first click's song time on entering scheduling at `offset`
(`startPlayback` lines 139-142): `phase + ceil((offset - phase)/interval) *
interval`. -/
def firstClickSongTime (phase beatInterval offset : ℚ) : ℚ :=
  qAdd phase (qMul (⌈qDiv (qSub offset phase) beatInterval⌉ : ℚ) beatInterval)

/-- Delay from the start instant to the first click (`startPlayback` line
145): `firstClickSongTime - offset`; the first hardware click time is the
audio-context time at start plus this delay (line 146). -/
def firstClickDelay (phase beatInterval offset : ℚ) : ℚ :=
  qSub (firstClickSongTime phase beatInterval offset) offset

/-- The `while` loop of `scheduler` (`TempoControls.tsx` lines 113-116),
with explicit fuel: while `nextNote < limit` emit a click at `nextNote` and
advance by `step = 60 / activeBpm`.  Returns the clicks scheduled in this
pass, the final `nextNoteTimeRef`, and whether the loop reached its exit
condition (`false` only when the fuel ran out first). -/
def schedulerLoop (limit step : ℚ) : ℕ → ℚ → List ℚ × ℚ × Bool
  | 0, nextNote =>
    if nextNote < limit then ([], nextNote, false) else ([], nextNote, true)
  | fuel + 1, nextNote =>
    if nextNote < limit then
      let r := schedulerLoop limit step fuel (qAdd nextNote step)
      (nextNote :: r.1, r.2)
    else ([], nextNote, true)

/-- One `scheduler` callback (`TempoControls.tsx` lines 109-117): an early
return when `activeBpm <= 0` (no loop iteration), otherwise the look-ahead
loop up to `currentTime + scheduleAheadTime` in steps of `60 / activeBpm`. -/
def schedulerTick (activeBpm currentTime : ℚ) (fuel : ℕ) (nextNote : ℚ) :
    List ℚ × ℚ × Bool :=
  if activeBpm ≤ 0 then ([], nextNote, true)
  else schedulerLoop (qAdd currentTime scheduleAheadTime) (qDiv 60 activeBpm) fuel nextNote

/-- Successive scheduler passes of one playback session: `nextNoteTimeRef`
persists between the 25 ms callbacks, each pass `(fuel, currentTime)` runs
the look-ahead loop from the note where the previous pass stopped.  Returns
every click scheduled during the session, in scheduling order. -/
def multiPass (step : ℚ) : List (ℕ × ℚ) → ℚ → List ℚ
  | [], _ => []
  | (fuel, limit) :: rest, nextNote =>
    let r := schedulerLoop limit step fuel nextNote
    r.1 ++ multiPass step rest r.2.1

/-- The clicks still pending when a session is stopped at hardware time
`now`: `stopPlayback` (`TempoControls.tsx` lines 33-55) clears the interval
timer and stops the buffer source, but `scheduleClick` keeps no reference to
its oscillators, so every click whose hardware time lies in the future will
still fire. -/
def pendingAfterStop (clicks : List ℚ) (now : ℚ) : List ℚ :=
  clicks.filter (fun c => decide (now < c))

/-! ## The seek/restart effect of `TempoControls` (lines 164-175)

`TempoControls` restarts playback only from the `useEffect` that watches
`currentTime`: the effect body runs after every dependency change (external
seeks, but also re-created callbacks after a tempo change or a beat-grid
change), and it stops-and-restarts the active playback only when
`|currentTime - internalTimeRef.current| > 0.01`.  The running
`setInterval(scheduler, 25)` keeps the `activeBpm` and `beatInfo` captured
when `startPlayback` created it (`schedBpm`, `schedBeat` below). -/

structure CtrlState where
  isPlaying : Bool
  /-- `schedulerIntervalRef.current !== null`: a look-ahead loop is active. -/
  schedActive : Bool
  /-- `activeBpm` captured by the closure of the running interval. -/
  schedBpm : ℚ
  /-- `beatInfo` captured by the closure of the running interval. -/
  schedBeat : BeatInfo
  /-- `internalTimeRef.current`. -/
  internalTime : ℚ
  /-- the `currentTime` prop. -/
  currentTime : ℚ
  /-- the `activeBpm` prop. -/
  activeBpm : ℚ
  /-- the `beatInfo` prop. -/
  beat : BeatInfo
  deriving DecidableEq, Repr

/-- The body of the seek effect (`TempoControls.tsx` lines 164-175): on an
external change (`> 0.01`) sync `internalTimeRef` and, if playing, stop and
restart playback, which re-creates the scheduler from the current props
(`startPlayback` lines 124, 136-149: the interval is started only when
`activeBpm > 0` and `beatInfo.interval > 0`). -/
def seekEffect (s : CtrlState) : CtrlState :=
  if (Rat.divInt 1 100) < |qSub s.currentTime s.internalTime| then
    let s1 : CtrlState := { s with internalTime := s.currentTime }
    if s1.isPlaying then
      { s1 with
        schedActive := decide (0 < s1.activeBpm ∧ 0 < s1.beat.interval)
        schedBpm := s1.activeBpm
        schedBeat := s1.beat }
    else s1
  else s

/-- A tempo change (`TempoControls.tsx` lines 229-238, `onBpmChange`): the
`activeBpm` prop changes, the callbacks are re-created, and the seek effect
re-runs with `currentTime` unchanged. -/
def tempoChange (b : ℚ) (s : CtrlState) : CtrlState :=
  seekEffect { s with activeBpm := b }

/-- A manual beat override: the `beatInfo` prop changes and the seek effect
re-runs with `currentTime` unchanged. -/
def beatOverride (g : BeatInfo) (s : CtrlState) : CtrlState :=
  seekEffect { s with beat := g }

/-- An external seek: the `currentTime` prop changes to `t` and the seek
effect re-runs. -/
def externalSeek (t : ℚ) (s : CtrlState) : CtrlState :=
  seekEffect { s with currentTime := t }

/-- The `firstBeat` rule as the specification words it: the first peak whose
distance to the nearest grid line, `min r (interval - r)` with the remainder
`r = (peakTime - phase) mod interval` normalized into `[0, interval)`, is
strictly below `interval / 4`; the first peak (or 0) when none qualifies.
Stated from the spec to compare against the code's `beatInfo` scan. -/
def firstBeatClaimed (phase beatInterval : ℚ) (peaks : List ℚ) : ℚ :=
  match peaks.find? (fun p =>
      let r := qSub (qSub p phase)
        (qMul beatInterval (⌊qDiv (qSub p phase) beatInterval⌋ : ℚ))
      decide (min r (qSub beatInterval r) < qDiv beatInterval 4)) with
  | some p => p
  | none => peaks.headD 0

/-! ## C2: fallback laws of the tempo scorer -/

/-- C2: for every peak list, `findBestBpm [] peaks = 0`; and for every
non-empty candidate list, `findBestBpm candidates [] = candidates[0].tempo`. -/
theorem findBestBpm_fallback (peaks : List ℚ) (c : BpmCandidate)
    (cs : List BpmCandidate) :
    findBestBpm [] peaks = 0 ∧ findBestBpm (c :: cs) [] = c.tempo :=
  ⟨rfl, rfl⟩

/-! ## C3: alignment dominance -/

/-- C3 counterexample: with candidates `[{120, 10}, {90, 50}]` and peaks
`[0, 0.5, 1, 1.5, 2]` the scorer selects 90 (score `1 + 50 + 0.1 = 51.1`
beats `4 + 10 + 0.2 = 14.2`), not 120 as the claim states. -/
theorem findBestBpm_dominance_fails :
    findBestBpm [⟨120, 10⟩, ⟨90, 50⟩]
        [0, Rat.divInt 1 2, 1, Rat.divInt 3 2, 2] ≠ 120 ∧
      findBestBpm [⟨120, 10⟩, ⟨90, 50⟩]
        [0, Rat.divInt 1 2, 1, Rat.divInt 3 2, 2] = 90 := by
  constructor
  · decide
  · decide

/-- C3 amended: the count gap must be small enough for alignment to decide;
with candidates `[{120, 10}, {90, 12}]` (count gap 2) and the same perfectly
aligned peaks, the scorer selects 120 despite its lower count
(`4 + 10 + 0.2 = 14.2` beats `1 + 12 + 0.1 = 13.1`). -/
theorem findBestBpm_dominance_small_gap :
    findBestBpm [⟨120, 10⟩, ⟨90, 12⟩]
      [0, Rat.divInt 1 2, 1, Rat.divInt 3 2, 2] = 120 := by
  decide

/-! ## C1: end-to-end scenario -/

/-- C1 counterexample: for peaks `[0, 0.5, 1, 1.5, 2]` and candidates
`[{120, 5}]`, the histogram phase is `1/128` (center of winning bin 0), not
0, so starting at offset `0.2` the first click's song time is not `0.5` and
the hardware delay is not `0.3`. -/
theorem firstClick_scenario_fails :
    firstClickSongTime
        ((findBestPhase [0, Rat.divInt 1 2, 1, Rat.divInt 3 2, 2]
          (qDiv 60 (findBestBpm [⟨120, 5⟩]
            [0, Rat.divInt 1 2, 1, Rat.divInt 3 2, 2]))).getD 0)
        (qDiv 60 (findBestBpm [⟨120, 5⟩]
          [0, Rat.divInt 1 2, 1, Rat.divInt 3 2, 2]))
        (Rat.divInt 1 5) ≠ Rat.divInt 1 2 := by
  decide

/-- C1 amended: best tempo 120 and beat interval `0.5` hold, but the
estimated phase is `1/128 = 0.0078125` s, so playback from offset `0.2` s
schedules its first click at song time `65/128 = 0.5078125` s, a hardware
delay of `197/640 = 0.3078125` s after the start instant. -/
theorem firstClick_scenario :
    findBestBpm [⟨120, 5⟩] [0, Rat.divInt 1 2, 1, Rat.divInt 3 2, 2] = 120 ∧
      qDiv 60 120 = Rat.divInt 1 2 ∧
      (findBestPhase [0, Rat.divInt 1 2, 1, Rat.divInt 3 2, 2]
        (Rat.divInt 1 2)).getD 0 = Rat.divInt 1 128 ∧
      firstClickSongTime (Rat.divInt 1 128) (Rat.divInt 1 2) (Rat.divInt 1 5) =
        Rat.divInt 65 128 ∧
      firstClickDelay (Rat.divInt 1 128) (Rat.divInt 1 2) (Rat.divInt 1 5) =
        Rat.divInt 197 640 := by
  refine ⟨by decide, by decide, by decide, by decide, by decide⟩

/-! ## C7: degenerate cases of the phase estimator -/

/-- C7 counterexample: at `beatInterval = 0` the code computes
`peaks[0] % 0 = NaN` (modelled `none`), not the number 0 the claim states. -/
theorem findBestPhase_zero_interval :
    findBestPhase [(1 : ℚ)] 0 ≠ some 0 := by
  decide

/-- C7 amended: with fewer than 2 peaks or `beatInterval ≤ 0`, the estimator
returns `(peaks[0] ?? 0) % beatInterval` under JavaScript's truncated
remainder — a number when `beatInterval ≠ 0`, and `NaN` (`none`) when
`beatInterval = 0`. -/
theorem findBestPhase_degenerate (peaks : List ℚ) (b : ℚ)
    (h : peaks.length < 2 ∨ b ≤ 0) :
    findBestPhase peaks b =
      if b = 0 then none else some (jsMod (peaks.headD 0) b) := by
  rw [findBestPhase, if_pos h]

/-- Witness for `findBestPhase_degenerate` at `peaks = [1]`, `b = -1`. -/
theorem findBestPhase_degenerate_witness :
    findBestPhase [(1 : ℚ)] (-1) =
      if (-1 : ℚ) = 0 then none else some (jsMod (([(1 : ℚ)]).headD 0) (-1)) :=
  findBestPhase_degenerate [(1 : ℚ)] (-1) (Or.inr (by norm_num))

/-! ## C6: override precedence -/

/-- C6: with a live beat grid (`activeBpm ≠ 0`, non-empty peaks), a user
override `t` yields exactly `{phase = t % interval, interval, firstBeat = t,
isUserDefined = true}`; and with the override reset (`null`) the memo equals
the freshly recomputed automatic estimate. -/
theorem beatInfo_override (bpm : ℚ) (peaks : List ℚ) (t : ℚ)
    (hbpm : bpm ≠ 0) (hpeaks : peaks ≠ []) :
    beatInfo bpm peaks (some t) =
        ⟨jsMod t (qDiv 60 bpm), qDiv 60 bpm, t, true⟩ ∧
      beatInfo bpm peaks none = beatInfoAuto bpm peaks := by
  have hguard : ¬(bpm = 0 ∨ peaks.isEmpty = true) := by
    simp [hbpm, List.isEmpty_iff, hpeaks]
  constructor
  · simp only [beatInfo, if_neg hguard]
  · simp only [beatInfo, beatInfoAuto, if_neg hguard]

/-- Witness for `beatInfo_override` at `bpm = 120`, `peaks = [0, 1/2]`,
override `t = 3/4`. -/
theorem beatInfo_override_witness :
    beatInfo 120 [0, Rat.divInt 1 2] (some (Rat.divInt 3 4)) =
        ⟨jsMod (Rat.divInt 3 4) (qDiv 60 120), qDiv 60 120, Rat.divInt 3 4, true⟩ ∧
      beatInfo 120 [0, Rat.divInt 1 2] none = beatInfoAuto 120 [0, Rat.divInt 1 2] :=
  beatInfo_override 120 [0, Rat.divInt 1 2] (Rat.divInt 3 4) (by norm_num)
    (by simp)

/-! ## C4: derivation of `firstBeat` -/

/-- C4 counterexample: `bpm = 120` (`interval = 1/2`) and peaks
`[0.25, 0.97, 1.47, 1.97]` give histogram phase `61/128`.  The claim's rule
(distance `min r (interval - r)` with `r` normalized into `[0, interval)`)
rejects peak `0.25` (distance `29/128 ≥ 1/8`) and selects `0.97`, but the
code's JS remainder for peak `0.25` is negative (`-29/128`), which passes
`remainder < tolerance`, so the code returns `0.25`. -/
theorem beatInfo_firstBeat_fails :
    (beatInfo 120
        [Rat.divInt 1 4, Rat.divInt 97 100, Rat.divInt 147 100, Rat.divInt 197 100]
        none).firstBeat = Rat.divInt 1 4 ∧
      firstBeatClaimed
        ((findBestPhase
          [Rat.divInt 1 4, Rat.divInt 97 100, Rat.divInt 147 100, Rat.divInt 197 100]
          (qDiv 60 120)).getD 0) (qDiv 60 120)
        [Rat.divInt 1 4, Rat.divInt 97 100, Rat.divInt 147 100, Rat.divInt 197 100] =
        Rat.divInt 97 100 ∧
      (Rat.divInt 1 4 : ℚ) ≠ Rat.divInt 97 100 := by
  refine ⟨by decide, by decide, by decide⟩

/-- The `firstBeat` computation of the memo, written declaratively: the first
peak accepted by `nearGrid` (signed JS remainder), with the code's
`firstBeat === 0` fallback to `peaks[0] || 0`. -/
def firstBeatScanned (phase beatInterval : ℚ) (peaks : List ℚ) : ℚ :=
  let f := (peaks.find? (nearGrid phase beatInterval)).getD 0
  if f = 0 then peaks.headD 0 else f

theorem scanFirstBeat_eq_find (phase b : ℚ) (l : List ℚ) :
    scanFirstBeat phase b l = (l.find? (nearGrid phase b)).getD 0 := by
  induction l with
  | nil => rfl
  | cons p rest ih =>
    by_cases h : nearGrid phase b p
    · rw [scanFirstBeat, if_pos h, List.find?_cons_of_pos _ h, Option.getD_some]
    · rw [scanFirstBeat, if_neg h,
        List.find?_cons_of_neg _ (by simpa using h), ih]

/-- Any peak at or before the phase has a non-positive JS remainder. -/
theorem jsMod_nonpos {x b : ℚ} (hx : x ≤ 0) (hb : 0 < b) : jsMod x b ≤ 0 := by
  rw [jsMod_eq, jsTrunc]
  rcases lt_or_le (x / b) 0 with hq | hq
  · rw [if_pos hq]
    have h1 : x / b ≤ (⌈x / b⌉ : ℚ) := Int.le_ceil _
    have h2 : x ≤ (⌈x / b⌉ : ℚ) * b := (div_le_iff₀ hb).1 h1
    linarith
  · rw [if_neg (not_lt.2 hq)]
    have hle : x / b ≤ 0 := by
      rw [div_nonpos_iff]; right; exact ⟨hx, hb.le⟩
    have hx0 : x / b = 0 := le_antisymm hle hq
    have hx' : x = 0 := by
      rcases div_eq_zero_iff.1 hx0 with h | h
      · exact h
      · exact absurd h hb.ne'
    simp [hx0, hx']

/-- C4 amended: for a live grid with computed phase, `firstBeat` is the first
peak whose signed JS remainder `r = (peakTime - phase) % interval` satisfies
`r < interval/4` or `interval - r < interval/4` (falling back to the first
peak when none qualifies or the accepted peak is at time 0); in particular
every peak at or before the phase qualifies, since its remainder is
non-positive. -/
theorem beatInfo_firstBeat (bpm : ℚ) (peaks : List ℚ)
    (hbpm : 0 < bpm) (hpeaks : peaks ≠ []) :
    (beatInfo bpm peaks none).firstBeat =
        firstBeatScanned ((findBestPhase peaks (qDiv 60 bpm)).getD 0)
          (qDiv 60 bpm) peaks ∧
      ∀ phase p : ℚ, p ≤ phase → nearGrid phase (qDiv 60 bpm) p = true := by
  have hb : (0 : ℚ) < qDiv 60 bpm := by
    rw [qDiv_eq]; exact div_pos (by norm_num) hbpm
  constructor
  · have hguard : ¬(bpm = 0 ∨ peaks.isEmpty = true) := by
      simp [hbpm.ne', List.isEmpty_iff, hpeaks]
    simp only [beatInfo, if_neg hguard, firstBeatScanned, scanFirstBeat_eq_find]
  · intro phase p hp
    have hrem : jsMod (qSub p phase) (qDiv 60 bpm) ≤ 0 :=
      jsMod_nonpos (by rw [qSub_eq]; linarith) hb
    have htol : (0 : ℚ) < qDiv (qDiv 60 bpm) 4 := by
      rw [qDiv_eq]; exact div_pos hb (by norm_num)
    rw [nearGrid]
    exact decide_eq_true (Or.inl (lt_of_le_of_lt hrem htol))

/-- Witness for `beatInfo_firstBeat` at `bpm = 120` and the four-peak list,
with the always-qualifying fact instantiated at `phase = 1`, `p = 0`. -/
theorem beatInfo_firstBeat_witness :
    (beatInfo 120
        [Rat.divInt 1 4, Rat.divInt 97 100, Rat.divInt 147 100, Rat.divInt 197 100]
        none).firstBeat =
        firstBeatScanned
          ((findBestPhase
            [Rat.divInt 1 4, Rat.divInt 97 100, Rat.divInt 147 100, Rat.divInt 197 100]
            (qDiv 60 120)).getD 0) (qDiv 60 120)
          [Rat.divInt 1 4, Rat.divInt 97 100, Rat.divInt 147 100, Rat.divInt 197 100] ∧
      nearGrid 1 (qDiv 60 120) 0 = true :=
  ⟨(beatInfo_firstBeat 120
      [Rat.divInt 1 4, Rat.divInt 97 100, Rat.divInt 147 100, Rat.divInt 197 100]
      (by norm_num) (by simp)).1,
    (beatInfo_firstBeat 120
      [Rat.divInt 1 4, Rat.divInt 97 100, Rat.divInt 147 100, Rat.divInt 197 100]
      (by norm_num) (by simp)).2 1 0 (by norm_num)⟩

/-! ## C9: restart of the scheduler on parameter changes -/

/-- C9 (code evaluated at the failing input): from an in-sync playing state
(scheduler active with captured `schedBpm = 120`, `currentTime =
internalTime = 1`), a tempo change to 240 leaves the component state
untouched except for the `activeBpm` prop — the running interval keeps its
stale closure at 120 BPM, no stop-then-restart happens (the restart effect
fires only on an external `currentTime` change, as the subsequent seek
shows: after `externalSeek 2` the scheduler is rebuilt with `schedBpm =
240`). -/
theorem tempoChange_keeps_stale_scheduler :
    tempoChange 240
        ⟨true, true, 120, ⟨Rat.divInt 1 128, Rat.divInt 1 2, 0, false⟩, 1, 1, 120,
          ⟨Rat.divInt 1 128, Rat.divInt 1 2, 0, false⟩⟩ =
        ⟨true, true, 120, ⟨Rat.divInt 1 128, Rat.divInt 1 2, 0, false⟩, 1, 1, 240,
          ⟨Rat.divInt 1 128, Rat.divInt 1 2, 0, false⟩⟩ ∧
      (externalSeek 2
        ⟨true, true, 120, ⟨Rat.divInt 1 128, Rat.divInt 1 2, 0, false⟩, 1, 1, 240,
          ⟨Rat.divInt 1 128, Rat.divInt 1 2, 0, false⟩⟩).schedBpm = 240 := by
  refine ⟨by decide, by decide⟩

/-! ## The look-ahead loop: structure of the scheduled clicks -/

/-- The clicks of one pass form an arithmetic progression from the starting
note, and the final `nextNoteTimeRef` sits one step past the last click. -/
theorem schedulerLoop_clicks (limit step : ℚ) (fuel : ℕ) (n : ℚ) :
    ∃ k : ℕ, (schedulerLoop limit step fuel n).1 =
        (List.range k).map (fun i : ℕ => n + (i : ℚ) * step) ∧
      (schedulerLoop limit step fuel n).2.1 = n + k * step := by
  induction fuel generalizing n with
  | zero =>
    refine ⟨0, ?_, ?_⟩ <;> by_cases hc : n < limit <;>
      simp [schedulerLoop, hc]
  | succ f ih =>
    by_cases hc : n < limit
    · obtain ⟨k, h1, h2⟩ := ih (qAdd n step)
      refine ⟨k + 1, ?_, ?_⟩
      · rw [schedulerLoop, if_pos hc]
        show n :: (schedulerLoop limit step f (qAdd n step)).1 = _
        rw [h1, qAdd_eq, List.range_succ_eq_map, List.map_cons, List.map_map]
        refine congrArg₂ _ (by push_cast; ring) (List.map_congr_left ?_)
        intro i _
        show n + step + (i : ℚ) * step = n + ((i : ℕ).succ : ℚ) * step
        push_cast
        ring
      · rw [schedulerLoop, if_pos hc]
        show (schedulerLoop limit step f (qAdd n step)).2.1 = _
        rw [h2, qAdd_eq]
        push_cast
        ring
    · exact ⟨0, by simp [schedulerLoop, if_neg hc], by simp [schedulerLoop, if_neg hc]⟩

/-- Clicks of a whole session (any number of look-ahead passes) form a single
arithmetic progression: `nextNoteTimeRef` carries over between passes. -/
theorem multiPass_clicks (step : ℚ) (ticks : List (ℕ × ℚ)) (n : ℚ) :
    ∃ K : ℕ, multiPass step ticks n = (List.range K).map (fun i : ℕ => n + (i : ℚ) * step) := by
  induction ticks generalizing n with
  | nil => exact ⟨0, by simp [multiPass]⟩
  | cons t rest ih =>
    obtain ⟨fuel, limit⟩ := t
    obtain ⟨k, h1, h2⟩ := schedulerLoop_clicks limit step fuel n
    obtain ⟨K, hK⟩ := ih ((schedulerLoop limit step fuel n).2.1)
    refine ⟨k + K, ?_⟩
    rw [multiPass, h1, hK, h2, List.range_add, List.map_append, List.map_map]
    refine congrArg₂ _ rfl (List.map_congr_left ?_)
    intro i _
    show n + (k : ℚ) * step + (i : ℚ) * step = n + ((k + i : ℕ) : ℚ) * step
    push_cast
    ring

/-- A nonempty pass starts clicking exactly at the starting note. -/
theorem schedulerLoop_head (limit step : ℚ) (fuel : ℕ) (n : ℚ) :
    ∀ c ∈ (schedulerLoop limit step fuel n).1.head?, c = n := by
  cases fuel with
  | zero => by_cases hc : n < limit <;> simp [schedulerLoop, hc]
  | succ f =>
    by_cases hc : n < limit
    · rw [schedulerLoop, if_pos hc]
      intro c hc'
      exact ((by simpa using hc' : n = c)).symm
    · rw [schedulerLoop, if_neg hc]
      simp

/-- Within one look-ahead pass, consecutive clicks differ by exactly one
beat interval. -/
theorem schedulerLoop_chain (limit step : ℚ) :
    ∀ (fuel : ℕ) (n : ℚ),
      List.Chain' (fun a b => b = a + step) (schedulerLoop limit step fuel n).1 := by
  intro fuel
  induction fuel with
  | zero => intro n; by_cases hc : n < limit <;> simp [schedulerLoop, hc]
  | succ f ih =>
    intro n
    by_cases hc : n < limit
    · rw [schedulerLoop, if_pos hc]
      show List.Chain' _ (n :: (schedulerLoop limit step f (qAdd n step)).1)
      rw [List.chain'_cons']
      refine ⟨fun y hy => ?_, ih (qAdd n step)⟩
      rw [schedulerLoop_head limit step f (qAdd n step) y hy, qAdd_eq]
    · rw [schedulerLoop, if_neg hc]
      simp

/-- An arithmetic progression with positive step is strictly increasing. -/
theorem pairwise_arith (n step : ℚ) (h : 0 < step) (K : ℕ) :
    List.Pairwise (· < ·) ((List.range K).map (fun i : ℕ => n + (i : ℚ) * step)) := by
  rw [List.pairwise_map]
  refine (List.pairwise_lt_range K).imp ?_
  intro i j hij
  have hij' : (i : ℚ) < j := by exact_mod_cast hij
  have := mul_lt_mul_of_pos_right hij' h
  linarith

/-! ## C5: scheduler no-overlap -/

/-- C5 counterexample: across a seek-restart the pending clicks are not
well-ordered.  Session 1 (phase 0, interval `1/2`, started at offset 0 and
hardware time 0) runs look-ahead passes at hardware times 0 and `0.43`
(limits `0.1`, `0.53`) and schedules clicks at 0 and `0.5`.  At hardware
time `0.43` a seek to offset `0.43` stops and restarts playback:
`stopPlayback` cancels no oscillator, so the click at `0.5` stays pending,
while the restarted session (`firstClickDelay = 0.07`) schedules its first
click at the same hardware time `0.43 + 0.07 = 0.5` on its first pass.  Two
clicks are pending at one hardware time — the same song-grid beat (song
time `0.5`) scheduled twice. -/
theorem scheduler_overlap_across_seek :
    pendingAfterStop
          (multiPass (Rat.divInt 1 2) [(5, Rat.divInt 1 10), (5, Rat.divInt 53 100)]
            (qAdd 0 (firstClickDelay 0 (Rat.divInt 1 2) 0)))
          (Rat.divInt 43 100) ++
        (schedulerLoop (Rat.divInt 53 100) (Rat.divInt 1 2) 5
          (qAdd (Rat.divInt 43 100)
            (firstClickDelay 0 (Rat.divInt 1 2) (Rat.divInt 43 100)))).1 =
        [Rat.divInt 1 2, Rat.divInt 1 2] ∧
      ¬(pendingAfterStop
          (multiPass (Rat.divInt 1 2) [(5, Rat.divInt 1 10), (5, Rat.divInt 53 100)]
            (qAdd 0 (firstClickDelay 0 (Rat.divInt 1 2) 0)))
          (Rat.divInt 43 100) ++
        (schedulerLoop (Rat.divInt 53 100) (Rat.divInt 1 2) 5
          (qAdd (Rat.divInt 43 100)
            (firstClickDelay 0 (Rat.divInt 1 2) (Rat.divInt 43 100)))).1).Nodup := by
  refine ⟨by decide, by decide⟩

/-- C5 amended: the no-overlap invariant holds within one scheduling session
(from a start or seek-restart until the next stop): with a positive beat
interval (`step = 60 / activeBpm`, the only case in which the scheduler
runs), every look-ahead pass emits clicks that differ by exactly one
interval, and over the session's passes (with the persisted
`nextNoteTimeRef`) the click times are strictly increasing — no two clicks
of the session share a hardware time, none are out of order, and no beat
index repeats.  Across a seek-restart it fails, because `stopPlayback` never
cancels the already-scheduled click oscillators
(`scheduler_overlap_across_seek`). -/
theorem scheduler_no_overlap (step limit n : ℚ) (fuel : ℕ)
    (ticks : List (ℕ × ℚ)) (hstep : 0 < step) :
    List.Chain' (fun a b => b = a + step) (schedulerLoop limit step fuel n).1 ∧
      List.Pairwise (· < ·) (multiPass step ticks n) ∧
      (multiPass step ticks n).Nodup := by
  obtain ⟨K, hK⟩ := multiPass_clicks step ticks n
  have hp : List.Pairwise (· < ·) (multiPass step ticks n) := by
    rw [hK]
    exact pairwise_arith n step hstep K
  exact ⟨schedulerLoop_chain limit step fuel n, hp,
    hp.imp fun hab => ne_of_lt hab⟩

/-- Witness for `scheduler_no_overlap`: a two-pass session at 120 BPM. -/
theorem scheduler_no_overlap_witness :
    List.Chain' (fun a b => b = a + Rat.divInt 1 2)
        (schedulerLoop 1 (Rat.divInt 1 2) 5 0).1 ∧
      List.Pairwise (· < ·)
        (multiPass (Rat.divInt 1 2) [(5, 1), (5, 2)] 0) ∧
      (multiPass (Rat.divInt 1 2) [(5, 1), (5, 2)] 0).Nodup :=
  scheduler_no_overlap (Rat.divInt 1 2) 1 0 5 [(5, 1), (5, 2)] (by decide)

/-! ## C10: termination of the look-ahead loop -/

/-- Enough fuel to walk from the starting note past the limit makes the loop
reach its exit condition. -/
theorem schedulerLoop_flag (limit step : ℚ) :
    ∀ (fuel : ℕ) (n : ℚ), limit ≤ n + fuel * step →
      (schedulerLoop limit step fuel n).2.2 = true := by
  intro fuel
  induction fuel with
  | zero =>
    intro n h
    rw [schedulerLoop, if_neg (not_lt.2 (by simpa using h))]
  | succ f ih =>
    intro n h
    by_cases hc : n < limit
    · rw [schedulerLoop, if_pos hc]
      show (schedulerLoop limit step f (qAdd n step)).2.2 = true
      refine ih (qAdd n step) ?_
      rw [qAdd_eq]
      push_cast at h ⊢
      linarith
    · rw [schedulerLoop, if_neg hc]

/-- Once the loop has completed within its fuel, extra fuel changes nothing. -/
theorem schedulerLoop_stable_step (limit step : ℚ) :
    ∀ (fuel : ℕ) (n : ℚ), (schedulerLoop limit step fuel n).2.2 = true →
      schedulerLoop limit step (fuel + 1) n = schedulerLoop limit step fuel n := by
  intro fuel
  induction fuel with
  | zero =>
    intro n h
    by_cases hc : n < limit
    · rw [schedulerLoop, if_pos hc] at h
      exact absurd h (by simp)
    · rw [schedulerLoop, if_neg hc, schedulerLoop, if_neg hc]
  | succ f ih =>
    intro n h
    by_cases hc : n < limit
    · rw [schedulerLoop, if_pos hc] at h
      have heq := ih (qAdd n step) h
      show schedulerLoop limit step (f + 1 + 1) n = schedulerLoop limit step (f + 1) n
      rw [schedulerLoop, if_pos hc, heq, schedulerLoop, if_pos hc]
    · rw [schedulerLoop, if_neg hc, schedulerLoop, if_neg hc]

theorem schedulerLoop_stable (limit step : ℚ) (fuel : ℕ) (n : ℚ)
    (h : (schedulerLoop limit step fuel n).2.2 = true) :
    ∀ extra, schedulerLoop limit step (fuel + extra) n =
      schedulerLoop limit step fuel n := by
  intro extra
  induction extra with
  | zero => rfl
  | succ e ih =>
    rw [show fuel + (e + 1) = (fuel + e) + 1 from rfl,
      schedulerLoop_stable_step limit step (fuel + e) n (by rw [ih]; exact h), ih]

/-- C10: every scheduler tick terminates.  When `activeBpm > 0` there is a
fuel bound after which the look-ahead condition fails and adding fuel leaves
the result unchanged (the `while` loop runs finitely many iterations); when
`activeBpm ≤ 0` the callback returns early and the loop body never runs. -/
theorem schedulerTick_terminates (bpm currentTime nextNote : ℚ) :
    (0 < bpm →
      ∃ fuel, (schedulerTick bpm currentTime fuel nextNote).2.2 = true ∧
        ∀ extra, schedulerTick bpm currentTime (fuel + extra) nextNote =
          schedulerTick bpm currentTime fuel nextNote) ∧
      (bpm ≤ 0 →
        ∀ fuel, schedulerTick bpm currentTime fuel nextNote = ([], nextNote, true)) := by
  constructor
  · intro hbpm
    have hstep : (0 : ℚ) < qDiv 60 bpm := by
      rw [qDiv_eq]
      exact div_pos (by norm_num) hbpm
    have hnot : ¬bpm ≤ 0 := not_le.2 hbpm
    obtain ⟨k, hk⟩ :=
      exists_nat_ge ((qAdd currentTime scheduleAheadTime - nextNote) / qDiv 60 bpm)
    have hreach : qAdd currentTime scheduleAheadTime ≤ nextNote + k * qDiv 60 bpm := by
      have := (div_le_iff₀ hstep).1 hk
      linarith
    refine ⟨k, ?_, ?_⟩
    · rw [schedulerTick, if_neg hnot]
      exact schedulerLoop_flag _ _ k nextNote hreach
    · intro extra
      rw [schedulerTick, if_neg hnot, schedulerTick, if_neg hnot]
      exact schedulerLoop_stable _ _ k nextNote
        (schedulerLoop_flag _ _ k nextNote hreach) extra
  · intro hbpm fuel
    rw [schedulerTick, if_pos hbpm]

/-- Witness for `schedulerTick_terminates` at 120 BPM. -/
theorem schedulerTick_terminates_witness :
    ∃ fuel, (schedulerTick 120 0 fuel 0).2.2 = true ∧
      ∀ extra, schedulerTick 120 0 (fuel + extra) 0 = schedulerTick 120 0 fuel 0 :=
  (schedulerTick_terminates 120 0 0).1 (by norm_num)

/-! ## C8: order-invariance of the phase histogram -/

/-- The scan step of `bestBinScan` never lowers a non-negative bin index. -/
theorem bestBinScan_aux (weight : ℕ → ℚ) (L : List ℕ) :
    ∀ st : ℚ × ℤ, 0 ≤ st.2 →
      0 ≤ (L.foldl
        (fun best i => let c := weight i; if best.1 < c then (c, (i : ℤ)) else best)
        st).2 := by
  induction L with
  | nil => intro st h; exact h
  | cons a L ih =>
    intro st h
    rw [List.foldl_cons]
    by_cases hc : st.1 < weight a
    · exact ih _ (by simp [hc])
    · exact ih _ (by simp [hc, h])

/-- With a non-negative weight on bin 0, the scan leaves its `-1` initial
state at the very first bin, so the selected index is never `-1`. -/
theorem bestBinScan_nonneg (weight : ℕ → ℚ) (h0 : 0 ≤ weight 0) :
    0 ≤ (bestBinScan weight).2 := by
  have h1 : (-1 : ℚ) < weight 0 := lt_of_lt_of_le (by norm_num) h0
  rw [bestBinScan, show (32 : ℕ) = 31 + 1 from rfl, List.range_succ_eq_map,
    List.foldl_cons]
  show 0 ≤ (((List.range 31).map Nat.succ).foldl
      (fun best i => let c := weight i; if best.1 < c then (c, (i : ℤ)) else best)
      (if (-1 : ℚ) < weight 0 then (weight 0, ((0 : ℕ) : ℤ)) else (-1, -1))).2
  rw [if_pos h1]
  exact bestBinScan_aux weight _ _ (by norm_num)

theorem smoothedCount_nonneg (l : List ℚ) (b : ℚ) (i : ℕ) :
    0 ≤ smoothedCount l b i := by
  rw [smoothedCount, qAdd_eq, qAdd_eq, qMul_eq, qMul_eq]
  have d2 : (0 : ℚ) ≤ Rat.divInt 1 2 := by decide
  refine add_nonneg (add_nonneg (Nat.cast_nonneg _) ?_) ?_ <;>
    exact mul_nonneg (Nat.cast_nonneg _) d2

/-- C8 counterexample: reordering peaks changes `findBestPhase` in two ways
the claim overlooks.  (a) Only the first 150 peaks enter the histogram: for
75 zeros followed by 76 halves (151 peaks, interval 1) the window holds a
75/75 tie won by bin 0 (phase `1/64`), while after moving the halves first
the window holds 76 halves versus 74 zeros and bin 16 wins (phase `33/64`).
(b) With `beatInterval ≤ 0` the degenerate branch returns the remainder of
whichever peak comes first. -/
theorem findBestPhase_perm_fails :
    ((List.replicate 75 (0 : ℚ) ++ List.replicate 76 (Rat.divInt 1 2)).Perm
        (List.replicate 76 (Rat.divInt 1 2) ++ List.replicate 75 (0 : ℚ)) ∧
      findBestPhase
          (List.replicate 75 (0 : ℚ) ++ List.replicate 76 (Rat.divInt 1 2)) 1 ≠
        findBestPhase
          (List.replicate 76 (Rat.divInt 1 2) ++ List.replicate 75 (0 : ℚ)) 1) ∧
      ([Rat.divInt 1 4, Rat.divInt 1 2].Perm [Rat.divInt 1 2, Rat.divInt 1 4] ∧
        findBestPhase [Rat.divInt 1 4, Rat.divInt 1 2] (-1) ≠
          findBestPhase [Rat.divInt 1 2, Rat.divInt 1 4] (-1)) := by
  refine ⟨⟨List.perm_append_comm, by decide⟩, ⟨by decide, by decide⟩⟩

/-- C8 amended: the phase estimate is invariant under reordering of the
peaks whenever the beat interval is positive and the peak list has at most
150 elements (so that the histogram window sees the whole list); the
histogram itself is order-independent. -/
theorem findBestPhase_perm (b : ℚ) (l₁ l₂ : List ℚ) (hp : l₁.Perm l₂)
    (hb : 0 < b) (hlen : l₁.length ≤ 150) :
    findBestPhase l₁ b = findBestPhase l₂ b := by
  have hlen2 : l₂.length = l₁.length := hp.length_eq.symm
  by_cases hsmall : l₁.length < 2
  · have heq : l₁ = l₂ := by
      cases l₁ with
      | nil => exact (List.Perm.eq_nil hp.symm).symm
      | cons a t =>
        cases t with
        | nil => exact (List.perm_singleton.1 hp.symm).symm
        | cons c t2 =>
          simp only [List.length_cons] at hsmall
          omega
    rw [heq]
  · have hguard1 : ¬(l₁.length < 2 ∨ b ≤ 0) := by
      push_neg
      exact ⟨not_lt.1 hsmall, hb⟩
    have hguard2 : ¬(l₂.length < 2 ∨ b ≤ 0) := by
      rw [hlen2]
      exact hguard1
    have htake1 : l₁.take 150 = l₁ := List.take_of_length_le hlen
    have htake2 : l₂.take 150 = l₂ := List.take_of_length_le (by rw [hlen2]; exact hlen)
    have hsm : smoothedCount (l₁.take 150) b = smoothedCount (l₂.take 150) b := by
      funext i
      rw [htake1, htake2]
      simp only [smoothedCount, binCount, hp.countP_eq]
    have hnn : (bestBinScan (smoothedCount (l₂.take 150) b)).2 ≠ -1 := by
      have := bestBinScan_nonneg (smoothedCount (l₂.take 150) b)
        (smoothedCount_nonneg _ _ 0)
      omega
    unfold findBestPhase
    rw [if_neg hguard1, if_neg hguard2]
    simp only [hsm]
    rw [if_neg hnn, if_neg hnn]

/-- Witness for `findBestPhase_perm`: swapping a two-peak list at interval 1. -/
theorem findBestPhase_perm_witness :
    findBestPhase [0, Rat.divInt 1 2] 1 = findBestPhase [Rat.divInt 1 2, 0] 1 :=
  findBestPhase_perm 1 [0, Rat.divInt 1 2] [Rat.divInt 1 2, 0]
    (by decide) (by decide) (by decide)

end Ybcbpm
